import Mathlib

/-
Verification of the Pixel repository's image-to-grid resampling pipeline.

Shallow embedding of:
  src/utils/imageUtils.ts        (pixelateImage: crop math, filter, box downscale)
  src/components/PixelPreview.tsx (handleWheel, handleMouseMove, handleDownload,
                                   preview drawing effect)
  src/App.tsx                     (resetTransform, initial transform)

Conventions: JavaScript numbers are modelled as rationals; rasters are
modelled as a width, a height and a total pixel-accessor function; the
Canvas 2D drawImage call is modelled by its two observable modes:
with image smoothing (the default, an area-averaging minification) and
with smoothing disabled (nearest-neighbor sampling at pixel centers).
-/

namespace Pixel

/-- An RGBA color with rational channels (canvas colors, allowing exact
averages produced by the smoothing minification filter). -/
structure Color where
  r : ℚ
  g : ℚ
  b : ℚ
  a : ℚ
deriving DecidableEq

/-- A raster image: dimensions plus a total pixel accessor
(models `HTMLImageElement` / canvas bitmaps; reads outside the stated
bounds are never used by the theorems below). -/
structure Image where
  width : ℕ
  height : ℕ
  pix : ℕ → ℕ → Color

/-- The pan/zoom transform from src/types.ts: `{x, y, scale}`. -/
structure ImageTransform where
  x : ℚ
  y : ℚ
  scale : ℚ
deriving DecidableEq

/-! ## Crop math of pixelateImage (src/utils/imageUtils.ts, step 2) -/

/-- Side of the square source crop:
`const size = Math.min(img.width, img.height) / transform.scale`. -/
def cropSide (img : Image) (t : ImageTransform) : ℚ :=
  ((min img.width img.height : ℕ) : ℚ) / t.scale

/-- Crop left edge: `const sx = cx - (size / 2) - transform.x` with
`cx = img.width / 2`. -/
def cropSx (img : Image) (t : ImageTransform) : ℚ :=
  (img.width : ℚ) / 2 - cropSide img t / 2 - t.x

/-- Crop top edge: `const sy = cy - (size / 2) - transform.y` with
`cy = img.height / 2`. -/
def cropSy (img : Image) (t : ImageTransform) : ℚ :=
  (img.height : ℚ) / 2 - cropSide img t / 2 - t.y

/-! ## Transform Controller (src/components/PixelPreview.tsx, src/App.tsx) -/

/-- The spec's clamp: `clamp(v, lo, hi) = max(lo, min(v, hi))`. -/
def clamp (v lo hi : ℚ) : ℚ := max lo (min v hi)

/-- handleWheel from PixelPreview.tsx:
`const delta = -e.deltaY * 0.001;`
`scale: Math.max(0.1, Math.min(prev.scale + delta * prev.scale * 5, 20))`. -/
def handleWheel (deltaY : ℚ) (prev : ImageTransform) : ImageTransform :=
  let delta := -deltaY * (1 / 1000)
  { prev with scale := max (1 / 10) (min (prev.scale + delta * prev.scale * 5) 20) }

/-- handleMouseMove from PixelPreview.tsx: early-returns unless a drag is
active, otherwise
`x: prev.x + e.movementX * sensitivity / prev.scale` (sensitivity = 2),
and likewise for y. -/
def handleMouseMove (isDragging : Bool) (dx dy : ℚ) (prev : ImageTransform) :
    ImageTransform :=
  if isDragging then
    { prev with
      x := prev.x + dx * 2 / prev.scale
      y := prev.y + dy * 2 / prev.scale }
  else prev

/-- resetTransform from App.tsx: `setTransform({ x: 0, y: 0, scale: 1 })`;
also the initial transform state. -/
def resetTransform : ImageTransform := { x := 0, y := 0, scale := 1 }

/-- The discrete pointer/wheel events consumed by PixelPreview's handlers
plus App's reset button. -/
inductive PixelEvent where
  | wheel (deltaY : ℚ)
  | mouseMove (dx dy : ℚ)
  | mouseDown
  | mouseUp
  | mouseLeave
  | reset

/-- The UI state the handlers read and write: the current transform and
the isDragging flag. -/
structure UIState where
  transform : ImageTransform
  isDragging : Bool

/-- One event step, dispatching to the handlers exactly as the component
wires them (mouseDown sets the drag flag; mouseUp and mouseLeave clear
it; wheel and mouseMove update the transform; reset restores the
initial transform). -/
def step (st : UIState) : PixelEvent → UIState
  | .wheel d => { st with transform := handleWheel d st.transform }
  | .mouseMove dx dy =>
      { st with transform := handleMouseMove st.isDragging dx dy st.transform }
  | .mouseDown => { st with isDragging := true }
  | .mouseUp => { st with isDragging := false }
  | .mouseLeave => { st with isDragging := false }
  | .reset => { st with transform := resetTransform }

/-- Initial UI state: transform `{0,0,1}`, no drag active. -/
def initState : UIState := { transform := resetTransform, isDragging := false }

/-- Run a finite event sequence from the initial state. -/
def run (es : List PixelEvent) : UIState := es.foldl step initState

/-! ## Canvas color filter (src/utils/imageUtils.ts, the `ctx.filter` string
`contrast(CV%) saturate(SV%)` with `CV = 100 + contrast`,
`SV = 100 + saturation`) -/

/-- The CSS `contrast(amount)` filter primitive on one color (channels on
the 0..1 scale): slope `amount` around the midpoint 1/2, alpha untouched. -/
def cssContrast (amount : ℚ) (c : Color) : Color :=
  { r := amount * c.r + (1 / 2 - amount / 2)
    g := amount * c.g + (1 / 2 - amount / 2)
    b := amount * c.b + (1 / 2 - amount / 2)
    a := c.a }

/-- The CSS `saturate(amount)` filter primitive on one color: the standard
luminance-preserving color matrix with coefficients 0.213 / 0.715 / 0.072,
alpha untouched. -/
def cssSaturate (amount : ℚ) (c : Color) : Color :=
  { r := (213 / 1000 + 787 / 1000 * amount) * c.r
         + (715 / 1000 - 715 / 1000 * amount) * c.g
         + (72 / 1000 - 72 / 1000 * amount) * c.b
    g := (213 / 1000 - 213 / 1000 * amount) * c.r
         + (715 / 1000 + 285 / 1000 * amount) * c.g
         + (72 / 1000 - 72 / 1000 * amount) * c.b
    b := (213 / 1000 - 213 / 1000 * amount) * c.r
         + (715 / 1000 - 715 / 1000 * amount) * c.g
         + (72 / 1000 + 928 / 1000 * amount) * c.b
    a := c.a }

/-- The filter list `contrast((100+contrast)%) saturate((100+saturation)%)`
set on the drawing context, applied left to right to every pixel. -/
def applyCanvasFilter (contrast saturation : ℚ) (img : Image) : Image :=
  { img with
    pix := fun x y =>
      cssSaturate ((100 + saturation) / 100)
        (cssContrast ((100 + contrast) / 100) (img.pix x y)) }

/-! ## The drawImage call with image smoothing (default), modelled as the
area-averaging (box filter) minification the spec attributes to it -/

/-- Length of the overlap of the interval [lo, hi] with the unit pixel
interval [p, p+1]. -/
def ov (lo hi : ℚ) (p : ℕ) : ℚ := max 0 (min hi ((p : ℚ) + 1) - max lo (p : ℚ))

/-- Area-weighted average of one scalar channel over the crop cell
[x0, x1] × [y0, y1]: pixels outside the source contribute transparent
black (weight present in the area but value 0). -/
def cellAvg (w h : ℕ) (f : ℕ → ℕ → ℚ) (x0 y0 x1 y1 area : ℚ) : ℚ :=
  ((Finset.range w).sum fun px =>
    (Finset.range h).sum fun py => ov x0 x1 px * ov y0 y1 py * f px py) / area

/-- `ctx.drawImage(img, sx, sy, size, size, 0, 0, g, g)` with image
smoothing enabled (the canvas default, left untouched by pixelateImage):
each destination cell receives the area average of the source pixels its
back-projected cell covers. -/
def drawImageSmooth (img : Image) (sx sy size : ℚ) (g : ℕ) : Image :=
  { width := g
    height := g
    pix := fun i j =>
      let x0 := sx + (i : ℚ) * (size / g)
      let x1 := sx + ((i : ℚ) + 1) * (size / g)
      let y0 := sy + (j : ℚ) * (size / g)
      let y1 := sy + ((j : ℚ) + 1) * (size / g)
      let area := (size / g) * (size / g)
      { r := cellAvg img.width img.height (fun a b => (img.pix a b).r) x0 y0 x1 y1 area
        g := cellAvg img.width img.height (fun a b => (img.pix a b).g) x0 y0 x1 y1 area
        b := cellAvg img.width img.height (fun a b => (img.pix a b).b) x0 y0 x1 y1 area
        a := cellAvg img.width img.height (fun a b => (img.pix a b).a) x0 y0 x1 y1 area } }

/-! ## pixelateImage (src/utils/imageUtils.ts) -/

/-- pixelateImage: sets the canvas to gridSize × gridSize, installs the
contrast/saturate filter, computes the square source crop and draws it
into the grid with the smoothing minification. The returned image is the
content of the tiny canvas (the decoded pixelDataUrl). -/
def pixelateImage (img : Image) (gridSize : ℕ) (contrast saturation : ℚ)
    (transform : ImageTransform) : Image :=
  let filtered := applyCanvasFilter contrast saturation img
  drawImageSmooth filtered (cropSx img transform) (cropSy img transform)
    (cropSide img transform) gridSize

/-- The same pipeline with the color-adjustment step removed entirely
(no `ctx.filter` assignment). -/
def pixelateImageNoFilter (img : Image) (gridSize : ℕ)
    (transform : ImageTransform) : Image :=
  drawImageSmooth img (cropSx img transform) (cropSy img transform)
    (cropSide img transform) gridSize

/-! ## drawImage with smoothing disabled (nearest-neighbor), used by the
preview canvas and by handleDownload -/

/-- `ctx.imageSmoothingEnabled = false; ctx.drawImage(img, 0, 0, w, h)`:
each destination pixel samples the source pixel containing its
back-projected center, i.e. source index floor((2X+1) · srcW / (2 · dstW)). -/
def drawImageNearest (img : Image) (outW outH : ℕ) : Image :=
  { width := outW
    height := outH
    pix := fun x y =>
      img.pix ((2 * x + 1) * img.width / (2 * outW))
              ((2 * y + 1) * img.height / (2 * outH)) }

/-- The preview drawing effect of PixelPreview.tsx: the canvas is sized to
`min(container.clientWidth, 512)`, smoothing is disabled, and the incoming
src — the tiny pixelated data URL produced by pixelateImage — is drawn
scaled to that size. -/
def previewRender (pixelated : Image) (containerWidth : ℕ) : Image :=
  let size := min containerWidth 512
  drawImageNearest pixelated size size

/-- Modelled from the spec: the preview pipeline the spec describes,
re-running the same crop/scale math as the Resampler but targeting the
capped display size `min(containerWidth, 512)` instead of gridSize
(src/ contains no such re-derivation; this definition follows the words
of spec section 4.2 for comparison with previewRender). -/
def specPreviewRender (src : Image) (transform : ImageTransform)
    (contrast saturation : ℚ) (containerWidth : ℕ) : Image :=
  let size := min containerWidth 512
  pixelateImage src size contrast saturation transform

/-- handleDownload from PixelPreview.tsx: a `gridSize * scale` square
canvas, smoothing disabled, the tiny pixelated src drawn scaled to fill
it. -/
def handleDownload (pixelated : Image) (gridSize scale : ℕ) : Image :=
  let finalSize := gridSize * scale
  drawImageNearest pixelated finalSize finalSize

/-! ## Auxiliary notions and concrete test rasters -/

/-- The plain average of the k × k block of source pixels with top-left
(A, B): the blended color the spec says each destination cell receives. -/
def blockAvg (img : Image) (A B k : ℕ) : Color :=
  { r := ((Finset.range k).sum fun a =>
           (Finset.range k).sum fun b => (img.pix (A + a) (B + b)).r) / ((k : ℚ) * k)
    g := ((Finset.range k).sum fun a =>
           (Finset.range k).sum fun b => (img.pix (A + a) (B + b)).g) / ((k : ℚ) * k)
    b := ((Finset.range k).sum fun a =>
           (Finset.range k).sum fun b => (img.pix (A + a) (B + b)).b) / ((k : ℚ) * k)
    a := ((Finset.range k).sum fun a =>
           (Finset.range k).sum fun b => (img.pix (A + a) (B + b)).a) / ((k : ℚ) * k) }

/-- A 2 × 3 uniformly gray test raster. -/
def img23 : Image := { width := 2, height := 3, pix := fun _ _ => ⟨1/2, 1/2, 1/2, 1⟩ }

/-- A 2 × 2 test raster, white at (0,0) and black elsewhere. -/
def exImg2 : Image :=
  { width := 2, height := 2
    pix := fun x y => if x = 0 ∧ y = 0 then ⟨1, 1, 1, 1⟩ else ⟨0, 0, 0, 1⟩ }

/-- A 16 × 16 test buffer whose cells are pairwise distinguishable. -/
def buf16 : Image :=
  { width := 16, height := 16, pix := fun i j => ⟨(i : ℚ), (j : ℚ), 0, 1⟩ }

/-! # Theorems -/

/-- Claim C1: for every source image and every transform with positive
scale, the sampled square source region has side s = min(w, h) / scale and
top-left sx = w/2 - s/2 - x, sy = h/2 - s/2 - y; at transform {0,0,1} the
side equals min(w, h) and the crop is centered: sx = (w - s)/2 and
sy = (h - s)/2. -/
theorem crop_region_spec (img : Image) (t : ImageTransform) (hpos : 0 < t.scale) :
    cropSide img t = ((min img.width img.height : ℕ) : ℚ) / t.scale ∧
    cropSx img t = (img.width : ℚ) / 2 - cropSide img t / 2 - t.x ∧
    cropSy img t = (img.height : ℚ) / 2 - cropSide img t / 2 - t.y ∧
    (t = resetTransform →
      cropSide img t = ((min img.width img.height : ℕ) : ℚ) ∧
      cropSx img t = ((img.width : ℚ) - cropSide img t) / 2 ∧
      cropSy img t = ((img.height : ℚ) - cropSide img t) / 2) := by
  refine ⟨rfl, rfl, rfl, fun ht => ?_⟩
  subst ht
  refine ⟨?_, ?_, ?_⟩
  · simp [cropSide, resetTransform]
  · simp only [cropSx, resetTransform]
    ring
  · simp only [cropSy, resetTransform]
    ring

/-- Witness for C1 at the 2 × 3 raster and the identity transform. -/
theorem crop_region_spec_witness :
    0 < resetTransform.scale ∧
    (cropSide img23 resetTransform
        = ((min img23.width img23.height : ℕ) : ℚ) / resetTransform.scale ∧
      cropSx img23 resetTransform
        = (img23.width : ℚ) / 2 - cropSide img23 resetTransform / 2 - resetTransform.x ∧
      cropSy img23 resetTransform
        = (img23.height : ℚ) / 2 - cropSide img23 resetTransform / 2 - resetTransform.y ∧
      (resetTransform = resetTransform →
        cropSide img23 resetTransform = ((min img23.width img23.height : ℕ) : ℚ) ∧
        cropSx img23 resetTransform
          = ((img23.width : ℚ) - cropSide img23 resetTransform) / 2 ∧
        cropSy img23 resetTransform
          = ((img23.height : ℚ) - cropSide img23 resetTransform) / 2)) :=
  ⟨by norm_num [resetTransform],
   crop_region_spec img23 resetTransform (by norm_num [resetTransform])⟩

/-- Claim C4: the zoom reducer yields
scale' = clamp(scale + (-d * 0.001) * scale * 5, 0.1, 20) and leaves x, y
unchanged; in particular from scale 1 a wheel delta of -100 yields
scale' = 1.5. -/
theorem zoom_reducer_spec (t : ImageTransform) (d : ℚ) :
    (handleWheel d t).scale
      = clamp (t.scale + (-d * (1 / 1000)) * t.scale * 5) (1 / 10) 20 ∧
    (handleWheel d t).x = t.x ∧
    (handleWheel d t).y = t.y ∧
    (handleWheel (-100) resetTransform).scale = 3 / 2 := by
  refine ⟨rfl, rfl, rfl, ?_⟩
  norm_num [handleWheel, resetTransform, min_def, max_def]

/-- Claim C5: while a drag is active the pan reducer yields
x' = x + dx * 2 / scale, y' = y + dy * 2 / scale; from {0,0,1} a pan of
(10, 0) yields {20, 0, 1}; while the drag is inactive the transform is
unchanged. -/
theorem pan_reducer_spec (t : ImageTransform) (dx dy : ℚ) :
    handleMouseMove true dx dy t
      = { x := t.x + dx * 2 / t.scale, y := t.y + dy * 2 / t.scale, scale := t.scale } ∧
    handleMouseMove false dx dy t = t ∧
    handleMouseMove true 10 0 resetTransform = { x := 20, y := 0, scale := 1 } := by
  refine ⟨rfl, rfl, ?_⟩
  simp only [handleMouseMove, if_true, resetTransform, ImageTransform.mk.injEq]
  norm_num

/-- The wheel handler always lands the scale in [1/10, 20]. -/
theorem handleWheel_scale_bounds (d : ℚ) (t : ImageTransform) :
    1 / 10 ≤ (handleWheel d t).scale ∧ (handleWheel d t).scale ≤ 20 := by
  constructor
  · exact le_max_left _ _
  · exact max_le (by norm_num) (min_le_right _ _)

/-- The mouse-move handler never changes the scale. -/
theorem handleMouseMove_scale (b : Bool) (dx dy : ℚ) (t : ImageTransform) :
    (handleMouseMove b dx dy t).scale = t.scale := by
  cases b <;> rfl

/-- Claim C6: starting from the initial transform {0,0,1}, every transform
reachable by a finite sequence of zoom, pan, drag and reset events has
scale in [0.1, 20], hence scale > 0. -/
theorem transform_scale_invariant (es : List PixelEvent) :
    1 / 10 ≤ (run es).transform.scale ∧
    (run es).transform.scale ≤ 20 ∧
    0 < (run es).transform.scale := by
  have key : ∀ (l : List PixelEvent) (st : UIState),
      1 / 10 ≤ st.transform.scale → st.transform.scale ≤ 20 →
      1 / 10 ≤ (l.foldl step st).transform.scale ∧
        (l.foldl step st).transform.scale ≤ 20 := by
    intro l
    induction l with
    | nil => exact fun st h1 h2 => ⟨h1, h2⟩
    | cons e rest ih =>
      intro st h1 h2
      have hstep : 1 / 10 ≤ (step st e).transform.scale ∧
          (step st e).transform.scale ≤ 20 := by
        cases e with
        | wheel d => exact handleWheel_scale_bounds d st.transform
        | mouseMove dx dy =>
            simp only [step, handleMouseMove_scale]
            exact ⟨h1, h2⟩
        | mouseDown => exact ⟨h1, h2⟩
        | mouseUp => exact ⟨h1, h2⟩
        | mouseLeave => exact ⟨h1, h2⟩
        | reset => exact ⟨by norm_num [step, resetTransform], by norm_num [step, resetTransform]⟩
      exact ih (step st e) hstep.1 hstep.2
  have h := key es initState (by norm_num [initState, resetTransform])
    (by norm_num [initState, resetTransform])
  exact ⟨h.1, h.2, lt_of_lt_of_le (by norm_num) h.1⟩

/-- The contrast primitive at amount 1 is the identity. -/
theorem cssContrast_one (c : Color) : cssContrast 1 c = c := by
  cases c with
  | mk r g b a =>
    simp only [cssContrast, Color.mk.injEq]
    norm_num

/-- The saturate primitive at amount 1 is the identity. -/
theorem cssSaturate_one (c : Color) : cssSaturate 1 c = c := by
  cases c with
  | mk r g b a =>
    simp only [cssSaturate, Color.mk.injEq]
    refine ⟨by ring, by ring, by ring, trivial⟩

/-- With contrast = 0 and saturation = 0 the canvas filter changes no
pixel. -/
theorem applyCanvasFilter_neutral (img : Image) :
    applyCanvasFilter 0 0 img = img := by
  cases img with
  | mk w h p =>
    simp only [applyCanvasFilter]
    congr 1
    funext x y
    norm_num [cssContrast_one, cssSaturate_one]

/-- Claim C9: resample with contrast = 0 and saturation = 0 is identical
to the same pipeline with the color-adjustment step disabled entirely. -/
theorem neutral_filter_identity (img : Image) (g : ℕ) (t : ImageTransform) :
    pixelateImage img g 0 0 t = pixelateImageNoFilter img g t := by
  unfold pixelateImage pixelateImageNoFilter
  rw [applyCanvasFilter_neutral]

/-- Claim C3: for every gridSize in [8, 64] and every source, transform,
contrast and saturation, a resample returns a buffer of exactly
gridSize × gridSize pixels. -/
theorem resample_dims (img : Image) (t : ImageTransform) (c s : ℚ) (g : ℕ)
    (h1 : 8 ≤ g) (h2 : g ≤ 64) :
    (pixelateImage img g c s t).width = g ∧
    (pixelateImage img g c s t).height = g :=
  ⟨rfl, rfl⟩

/-- Witness for C3 at gridSize 16. -/
theorem resample_dims_witness :
    (8 ≤ 16 ∧ 16 ≤ 64) ∧
    ((pixelateImage img23 16 10 20 resetTransform).width = 16 ∧
     (pixelateImage img23 16 10 20 resetTransform).height = 16) :=
  ⟨by decide, resample_dims img23 resetTransform 10 20 16 (by decide) (by decide)⟩

/-- Counterexample for C10: the Resampler does not clamp an out-of-range
gridSize into [8, 64] — pixelateImage at gridSize 100 yields a 100 × 100
buffer, not one of side at most 64. -/
theorem no_clamping_counterexample :
    (pixelateImage img23 100 200 (-200) resetTransform).width = 100 ∧
    ¬ (pixelateImage img23 100 200 (-200) resetTransform).width ≤ 64 :=
  ⟨rfl, by decide⟩

/-- Claim C10 (amended): out-of-range gridSize, contrast and saturation
are never treated as errors, and they are not clamped either: the
Resampler uses the supplied values directly — the buffer is
gridSize × gridSize for every gridSize, and the color pass is exactly the
filter built from the raw contrast and saturation. -/
theorem settings_used_unclamped (img : Image) (g : ℕ) (c s : ℚ)
    (t : ImageTransform) :
    (pixelateImage img g c s t).width = g ∧
    (pixelateImage img g c s t).height = g ∧
    pixelateImage img g c s t
      = pixelateImageNoFilter (applyCanvasFilter c s img) g t :=
  ⟨rfl, rfl, rfl⟩

/-- On integer bounds the overlap length is an indicator: 1 on the pixels
of [A, B), 0 elsewhere. -/
theorem ov_int (A B p : ℕ) :
    ov (A : ℚ) (B : ℚ) p = if A ≤ p ∧ p < B then 1 else 0 := by
  unfold ov
  by_cases hA : A ≤ p
  · by_cases hB : p < B
    · rw [if_pos ⟨hA, hB⟩]
      have h1 : max (A : ℚ) (p : ℚ) = (p : ℚ) := max_eq_right (by exact_mod_cast hA)
      have h2 : min (B : ℚ) ((p : ℚ) + 1) = (p : ℚ) + 1 := by
        apply min_eq_right
        exact_mod_cast Nat.succ_le_of_lt hB
      rw [h1, h2]
      norm_num
    · rw [if_neg (by tauto)]
      push_neg at hB
      have h1 : max (A : ℚ) (p : ℚ) = (p : ℚ) := max_eq_right (by exact_mod_cast hA)
      have h2 : min (B : ℚ) ((p : ℚ) + 1) = (B : ℚ) := by
        apply min_eq_left
        have hc : (B : ℚ) ≤ (p : ℚ) := by exact_mod_cast hB
        linarith
      rw [h1, h2]
      apply max_eq_left
      have hc : (B : ℚ) ≤ (p : ℚ) := by exact_mod_cast hB
      linarith
  · rw [if_neg (by tauto)]
    push_neg at hA
    have h1 : max (A : ℚ) (p : ℚ) = (A : ℚ) := max_eq_left (by exact_mod_cast hA.le)
    rw [h1]
    apply max_eq_left
    have hmin : min (B : ℚ) ((p : ℚ) + 1) ≤ (p : ℚ) + 1 := min_le_right _ _
    have hc : (p : ℚ) + 1 ≤ (A : ℚ) := by exact_mod_cast Nat.succ_le_of_lt hA
    linarith

/-- A weighted sum over the whole row with integer-aligned overlap
weights collapses to the plain sum over the covered block of k pixels. -/
theorem sum_ov_block (w A k : ℕ) (h : A + k ≤ w) (c : ℕ → ℚ) :
    ((Finset.range w).sum fun p => ov (A : ℚ) ((A : ℚ) + (k : ℚ)) p * c p)
      = (Finset.range k).sum fun a => c (A + a) := by
  have hAk : ((A : ℚ) + (k : ℚ)) = ((A + k : ℕ) : ℚ) := by push_cast; ring
  calc ((Finset.range w).sum fun p => ov (A : ℚ) ((A : ℚ) + (k : ℚ)) p * c p)
      = (Finset.range w).sum fun p => if p ∈ Finset.Ico A (A + k) then c p else 0 := by
        apply Finset.sum_congr rfl
        intro p _
        rw [hAk, ov_int]
        by_cases hp : A ≤ p ∧ p < A + k
        · rw [if_pos hp, if_pos (Finset.mem_Ico.mpr hp), one_mul]
        · rw [if_neg hp, if_neg (fun hmem => hp (Finset.mem_Ico.mp hmem)), zero_mul]
    _ = (Finset.Ico A (A + k)).sum c := by
        rw [Finset.sum_ite_mem]
        congr 1
        rw [Finset.inter_eq_right]
        intro x hx
        rw [Finset.mem_range]
        exact lt_of_lt_of_le (Finset.mem_Ico.mp hx).2 h
    _ = (Finset.range k).sum fun a => c (A + a) := by
        rw [Finset.sum_Ico_eq_sum_range, Nat.add_sub_cancel_left]

/-- On an integer-aligned cell of side k that lies inside the source, the
area-weighted cell average is the plain average of the covered k × k
pixel block. -/
theorem cellAvg_block (w h k : ℕ) (f : ℕ → ℕ → ℚ) (A B : ℕ)
    (hw : A + k ≤ w) (hh : B + k ≤ h) :
    cellAvg w h f (A : ℚ) (B : ℚ) ((A : ℚ) + (k : ℚ)) ((B : ℚ) + (k : ℚ))
        ((k : ℚ) * k)
      = ((Finset.range k).sum fun a =>
          (Finset.range k).sum fun b => f (A + a) (B + b)) / ((k : ℚ) * k) := by
  unfold cellAvg
  congr 1
  calc ((Finset.range w).sum fun px => (Finset.range h).sum fun py =>
          ov (A : ℚ) ((A : ℚ) + (k : ℚ)) px * ov (B : ℚ) ((B : ℚ) + (k : ℚ)) py * f px py)
      = (Finset.range w).sum (fun px => ov (A : ℚ) ((A : ℚ) + (k : ℚ)) px *
          (Finset.range h).sum fun py => ov (B : ℚ) ((B : ℚ) + (k : ℚ)) py * f px py) := by
        apply Finset.sum_congr rfl
        intro px _
        rw [Finset.mul_sum]
        apply Finset.sum_congr rfl
        intro py _
        ring
    _ = (Finset.range k).sum fun a =>
          (Finset.range h).sum fun py => ov (B : ℚ) ((B : ℚ) + (k : ℚ)) py * f (A + a) py :=
        sum_ov_block w A k hw _
    _ = (Finset.range k).sum fun a => (Finset.range k).sum fun b => f (A + a) (B + b) := by
        apply Finset.sum_congr rfl
        intro a _
        exact sum_ov_block h B k hh _

/-- The smoothing drawImage on an integer-aligned crop of side k·g that
lies inside the source: destination cell (i, j) is the plain average of
the k × k source block it covers. -/
theorem drawImageSmooth_aligned (img : Image) (A B k g i j : ℕ)
    (hg : 0 < g) (hi : i < g) (hj : j < g)
    (hw : A + k * g ≤ img.width) (hh : B + k * g ≤ img.height) :
    (drawImageSmooth img (A : ℚ) (B : ℚ) ((k : ℚ) * (g : ℚ)) g).pix i j
      = blockAvg img (A + k * i) (B + k * j) k := by
  have hgQ : (g : ℚ) ≠ 0 := Nat.cast_ne_zero.mpr hg.ne'
  have hsz : ((k : ℚ) * (g : ℚ)) / (g : ℚ) = (k : ℚ) := mul_div_cancel_right₀ _ hgQ
  have hib : A + k * i + k ≤ img.width := by
    have hmul : k * i + k ≤ k * g := by
      have hstep := Nat.mul_le_mul_left k (Nat.succ_le_of_lt hi)
      simpa [Nat.mul_succ] using hstep
    omega
  have hjb : B + k * j + k ≤ img.height := by
    have hmul : k * j + k ≤ k * g := by
      have hstep := Nat.mul_le_mul_left k (Nat.succ_le_of_lt hj)
      simpa [Nat.mul_succ] using hstep
    omega
  have ex0 : (A : ℚ) + (i : ℚ) * ((k : ℚ) * (g : ℚ) / (g : ℚ))
      = ((A + k * i : ℕ) : ℚ) := by rw [hsz]; push_cast; ring
  have ex1 : (A : ℚ) + ((i : ℚ) + 1) * ((k : ℚ) * (g : ℚ) / (g : ℚ))
      = ((A + k * i : ℕ) : ℚ) + (k : ℚ) := by rw [hsz]; push_cast; ring
  have ey0 : (B : ℚ) + (j : ℚ) * ((k : ℚ) * (g : ℚ) / (g : ℚ))
      = ((B + k * j : ℕ) : ℚ) := by rw [hsz]; push_cast; ring
  have ey1 : (B : ℚ) + ((j : ℚ) + 1) * ((k : ℚ) * (g : ℚ) / (g : ℚ))
      = ((B + k * j : ℕ) : ℚ) + (k : ℚ) := by rw [hsz]; push_cast; ring
  have earea : ((k : ℚ) * (g : ℚ) / (g : ℚ)) * ((k : ℚ) * (g : ℚ) / (g : ℚ))
      = (k : ℚ) * (k : ℚ) := by rw [hsz]
  unfold drawImageSmooth blockAvg
  dsimp only
  rw [ex0, ex1, ey0, ey1, earea]
  simp only [Color.mk.injEq]
  exact ⟨cellAvg_block img.width img.height k _ (A + k * i) (B + k * j) hib hjb,
         cellAvg_block img.width img.height k _ (A + k * i) (B + k * j) hib hjb,
         cellAvg_block img.width img.height k _ (A + k * i) (B + k * j) hib hjb,
         cellAvg_block img.width img.height k _ (A + k * i) (B + k * j) hib hjb⟩

/-- Claim C2: the downscale of the source crop into the gridSize square is
an area-averaging (box-filter) resize, not nearest-neighbor sampling:
every destination cell of the smoothing drawImage receives the average of
the source block it covers (integer-aligned case shown), and on a
concrete image the pixelateImage output cell differs from what
nearest-neighbor sampling of the same crop would give. -/
theorem downscale_is_box_filter (img : Image) (A B k g i j : ℕ)
    (hg : 0 < g) (hi : i < g) (hj : j < g)
    (hw : A + k * g ≤ img.width) (hh : B + k * g ≤ img.height) :
    (drawImageSmooth img (A : ℚ) (B : ℚ) ((k : ℚ) * (g : ℚ)) g).pix i j
      = blockAvg img (A + k * i) (B + k * j) k ∧
    (pixelateImage exImg2 1 0 0 resetTransform).pix 0 0
      ≠ (drawImageNearest exImg2 1 1).pix 0 0 := by
  refine ⟨drawImageSmooth_aligned img A B k g i j hg hi hj hw hh, ?_⟩
  have hL : (pixelateImage exImg2 1 0 0 resetTransform).pix 0 0
      = ⟨1 / 4, 1 / 4, 1 / 4, 1⟩ := by
    unfold pixelateImage
    rw [applyCanvasFilter_neutral]
    norm_num [drawImageSmooth, cellAvg, cropSx, cropSy, cropSide, resetTransform,
      exImg2, Finset.sum_range_succ, Finset.sum_range_zero, ov, min_def, max_def,
      Color.mk.injEq]
  have hR : (drawImageNearest exImg2 1 1).pix 0 0 = ⟨0, 0, 0, 1⟩ := by
    norm_num [drawImageNearest, exImg2]
  rw [hL, hR]
  simp only [ne_eq, Color.mk.injEq]
  norm_num

/-- Witness for C2 at the 2 × 2 raster, block side 1, grid 2, cell (1,0). -/
theorem downscale_is_box_filter_witness :
    (0 < 2 ∧ 1 < 2 ∧ 0 < 2 ∧ 0 + 1 * 2 ≤ exImg2.width ∧ 0 + 1 * 2 ≤ exImg2.height) ∧
    ((drawImageSmooth exImg2 ((0 : ℕ) : ℚ) ((0 : ℕ) : ℚ)
        (((1 : ℕ) : ℚ) * ((2 : ℕ) : ℚ)) 2).pix 1 0
        = blockAvg exImg2 (0 + 1 * 1) (0 + 1 * 0) 1 ∧
      (pixelateImage exImg2 1 0 0 resetTransform).pix 0 0
        ≠ (drawImageNearest exImg2 1 1).pix 0 0) :=
  ⟨by decide,
   downscale_is_box_filter exImg2 0 0 1 2 1 0 (by decide) (by decide) (by decide)
     (by decide) (by decide)⟩

/-- Nearest-neighbor center sampling at an exact integer magnification k
of a g-wide source maps destination index k·i + a (a < k) back to source
index i. -/
theorem nearest_index (g k i a : ℕ) (hg : 0 < g) (hk : 0 < k) (ha : a < k) :
    (2 * (k * i + a) + 1) * g / (2 * (k * g)) = i := by
  have hsplit : (2 * (k * i + a) + 1) * g = (2 * a + 1) * g + 2 * (k * g) * i := by
    ring
  rw [hsplit]
  have hD : 0 < 2 * (k * g) := by positivity
  rw [Nat.add_mul_div_left _ _ hD]
  have hlt : (2 * a + 1) * g < 2 * (k * g) := by
    have h2 : 2 * a + 1 < 2 * k := by omega
    calc (2 * a + 1) * g < (2 * k) * g := (Nat.mul_lt_mul_right hg).mpr h2
      _ = 2 * (k * g) := by ring
  rw [Nat.div_eq_of_lt hlt, zero_add]

/-- The pixelateImage cell value on the concrete 2 × 2 raster at grid 1:
the blended quarter-white color. -/
theorem pixelate_exImg2_cell :
    (pixelateImage exImg2 1 0 0 resetTransform).pix 0 0 = ⟨1 / 4, 1 / 4, 1 / 4, 1⟩ := by
  unfold pixelateImage
  rw [applyCanvasFilter_neutral]
  norm_num [drawImageSmooth, cellAvg, cropSx, cropSy, cropSide, resetTransform,
    exImg2, Finset.sum_range_succ, Finset.sum_range_zero, ov, min_def, max_def,
    Color.mk.injEq]

/-- Counterexample for C7: the screen preview is drawn from the tiny
gridSize × gridSize pixelated buffer, not by re-running the crop/scale
math at the display resolution — on a concrete 2 × 2 source at gridSize 1
and display size 2 the two pipelines give different top-left pixels. -/
theorem preview_not_rederived_counterexample :
    (previewRender (pixelateImage exImg2 1 0 0 resetTransform) 2).pix 0 0
      ≠ (specPreviewRender exImg2 resetTransform 0 0 2).pix 0 0 := by
  have hstep : (previewRender (pixelateImage exImg2 1 0 0 resetTransform) 2).pix 0 0
      = (pixelateImage exImg2 1 0 0 resetTransform).pix 0 0 := rfl
  have hR : (specPreviewRender exImg2 resetTransform 0 0 2).pix 0 0
      = ⟨1, 1, 1, 1⟩ := by
    unfold specPreviewRender pixelateImage
    rw [applyCanvasFilter_neutral]
    norm_num [drawImageSmooth, cellAvg, cropSx, cropSy, cropSide, resetTransform,
      exImg2, Finset.sum_range_succ, Finset.sum_range_zero, ov, min_def, max_def,
      Color.mk.injEq]
  rw [hstep, pixelate_exImg2_cell, hR]
  simp only [ne_eq, Color.mk.injEq]
  norm_num

/-- Claim C7 (amended): the screen preview raster (capped at a 512px
display size) is a nearest-neighbor magnification of the tiny
gridSize × gridSize pixelated buffer itself: with display size
min(containerWidth, 512) = k · gridSize, every aligned k × k block of the
preview is the uniform color of the corresponding buffer cell. The crop
math is not re-run at display resolution. -/
theorem preview_is_nearest_upscale (buf : Image) (cw g k i j a b : ℕ)
    (hbw : buf.width = g) (hbh : buf.height = g)
    (hsize : min cw 512 = k * g) (hk : 0 < k) (hg : 0 < g)
    (hi : i < g) (hj : j < g) (ha : a < k) (hb : b < k) :
    (previewRender buf cw).width = min cw 512 ∧
    (previewRender buf cw).height = min cw 512 ∧
    (previewRender buf cw).pix (k * i + a) (k * j + b) = buf.pix i j := by
  refine ⟨rfl, rfl, ?_⟩
  unfold previewRender drawImageNearest
  dsimp only
  rw [hbw, hbh, hsize, nearest_index g k i a hg hk ha, nearest_index g k j b hg hk hb]

/-- Witness for the amended C7 at the 2 × 2 buffer, container width 4
(so k = 2), cell (0,0), block offset (1,1). -/
theorem preview_is_nearest_upscale_witness :
    (exImg2.width = 2 ∧ exImg2.height = 2 ∧ min 4 512 = 2 * 2 ∧ 0 < 2 ∧ 0 < 2 ∧
      0 < 2 ∧ 0 < 2 ∧ 1 < 2 ∧ 1 < 2) ∧
    ((previewRender exImg2 4).width = min 4 512 ∧
     (previewRender exImg2 4).height = min 4 512 ∧
     (previewRender exImg2 4).pix (2 * 0 + 1) (2 * 0 + 1) = exImg2.pix 0 0) :=
  ⟨by decide,
   preview_is_nearest_upscale exImg2 4 2 2 0 0 1 1 rfl rfl (by decide) (by decide)
     (by decide) (by decide) (by decide) (by decide) (by decide)⟩

/-- Claim C8: export at gridSize 16, multiplier 32 produces a 512 × 512
raster in which each aligned 32 × 32 block is the uniform solid color of
the corresponding buffer cell (nearest-neighbor magnification, no
interpolation across block boundaries). -/
theorem export_block_uniform (buf : Image) (i j a b : ℕ)
    (hbw : buf.width = 16) (hbh : buf.height = 16)
    (hi : i < 16) (hj : j < 16) (ha : a < 32) (hb : b < 32) :
    (handleDownload buf 16 32).width = 512 ∧
    (handleDownload buf 16 32).height = 512 ∧
    (handleDownload buf 16 32).pix (32 * i + a) (32 * j + b) = buf.pix i j := by
  refine ⟨rfl, rfl, ?_⟩
  unfold handleDownload drawImageNearest
  dsimp only
  rw [hbw, hbh]
  congr 1 <;> omega

/-- Witness for C8 at a 16 × 16 buffer with pairwise distinct cells,
block (3,5), in-block offset (7,9). -/
theorem export_block_uniform_witness :
    (buf16.width = 16 ∧ buf16.height = 16 ∧ 3 < 16 ∧ 5 < 16 ∧ 7 < 32 ∧ 9 < 32) ∧
    ((handleDownload buf16 16 32).width = 512 ∧
     (handleDownload buf16 16 32).height = 512 ∧
     (handleDownload buf16 16 32).pix (32 * 3 + 7) (32 * 5 + 9) = buf16.pix 3 5) :=
  ⟨by decide,
   export_block_uniform buf16 3 5 7 9 rfl rfl (by decide) (by decide) (by decide)
     (by decide)⟩

end Pixel
